import Mathlib

/-!
Verification development for the CommitHelper extension.

The definitions below are shallow embeddings of the TypeScript sources:
`src/core/cache.ts` (the TTL/LRU cache), `src/git/parser.ts` (the remote-URL
parser), `src/http/client.ts` (`requestWithRetry`), `src/platforms/gitlab.ts`
and `src/platforms/gitee.ts` (token resolution and issue paging),
`src/platforms/factory.ts` and `src/core/services.ts` (the service layer).
Wall-clock time (`Date.now()`) is passed explicitly as a `now : Nat`
parameter; a JavaScript `Map` is embedded as an insertion-ordered
association list (head of the list = oldest entry); fallible code returns
`Option` or `Except`.
-/

namespace CommitHelper

/-- JS truthiness of a `string | undefined` value: `undefined` and the empty
string are falsy, every other string is truthy. -/
def truthy : Option String → Bool
  | none => false
  | some s => !(s == "")

/-- JS `a || b` on `string | undefined` values. -/
def jsOr (a b : Option String) : Option String :=
  if truthy a then a else b

/-- Entry stored by `Cache<T>` (src/core/cache.ts): the cached value together
with its insertion timestamp. -/
structure CacheEntry (T : Type) where
  data : T
  timestamp : Nat
deriving DecidableEq

/-- State of a `Cache<T>` instance (src/core/cache.ts).  The backing JS `Map`
is embedded as a list in iteration (insertion) order, head first = oldest. -/
structure Cache (T : Type) where
  entries : List (String × CacheEntry T)
  ttl : Nat
  maxSize : Nat
deriving DecidableEq

/-- JS `Map.get key` on the embedded association list. -/
def mapFind {T : Type} (l : List (String × CacheEntry T)) (k : String) :
    Option (CacheEntry T) :=
  (l.find? (fun p => p.1 == k)).map (fun p => p.2)

/-- JS `Map.delete key` on the embedded association list. -/
def mapDelete {T : Type} (l : List (String × CacheEntry T)) (k : String) :
    List (String × CacheEntry T) :=
  l.filter (fun p => !(p.1 == k))

/-- JS `Map.set key e`: update in place when the key is present, otherwise
append at the end of the iteration order. -/
def mapSet {T : Type} (l : List (String × CacheEntry T)) (k : String)
    (e : CacheEntry T) : List (String × CacheEntry T) :=
  if (l.find? (fun p => p.1 == k)).isSome then
    l.map (fun p => if p.1 == k then (k, e) else p)
  else
    l ++ [(k, e)]

/-- The `Cache` constructor: `ttlMinutes` is converted to milliseconds, the
map starts empty (src/core/cache.ts lines 114-121; the sweep timer is part of
the runtime, not of the state acted on by `set`/`get`/`has`). -/
def Cache.init (T : Type) (ttlMinutes maxSize : Nat) : Cache T :=
  { entries := [], ttl := ttlMinutes * 60 * 1000, maxSize := maxSize }

/-- `Cache.set` (src/core/cache.ts lines 123-141): if the key is already
present delete it first, then if the map is at or above capacity delete the
first (oldest) entry, then insert the new entry stamped `now`. -/
def Cache.set {T : Type} (c : Cache T) (now : Nat) (key : String) (data : T) :
    Cache T :=
  let c1 := if (mapFind c.entries key).isSome then mapDelete c.entries key
            else c.entries
  let c2 :=
    if c.maxSize ≤ c1.length then
      match c1 with
      | [] => c1
      | (oldestKey, _) :: _ => mapDelete c1 oldestKey
    else c1
  { c with entries := mapSet c2 key ⟨data, now⟩ }

/-- `Cache.get` (src/core/cache.ts lines 143-160): a missing key yields
`none`; an entry older than `ttl` is deleted and yields `none`; a fresh entry
is deleted and re-inserted at the end (the LRU touch) and its value returned. -/
def Cache.get {T : Type} (c : Cache T) (now : Nat) (key : String) :
    Option T × Cache T :=
  match mapFind c.entries key with
  | none => (none, c)
  | some entry =>
    if c.ttl < now - entry.timestamp then
      (none, { c with entries := mapDelete c.entries key })
    else
      (some entry.data,
       { c with entries := mapSet (mapDelete c.entries key) key entry })

/-- `Cache.has` (src/core/cache.ts lines 162-175): same expiry check as
`get` (an expired entry is deleted), but a fresh hit does not alter the
iteration order. -/
def Cache.has {T : Type} (c : Cache T) (now : Nat) (key : String) :
    Bool × Cache T :=
  match mapFind c.entries key with
  | none => (false, c)
  | some entry =>
    if c.ttl < now - entry.timestamp then
      (false, { c with entries := mapDelete c.entries key })
    else
      (true, c)

theorem mapFind_mapDelete {T : Type} (l : List (String × CacheEntry T))
    (k : String) : mapFind (mapDelete l k) k = none := by
  induction l with
  | nil => rfl
  | cons p t ih =>
    simp only [mapDelete, mapFind, List.filter] at *
    by_cases h : p.1 == k
    · simp only [h, Bool.not_true]
      exact ih
    · simp only [h, Bool.not_false, List.find?]
      exact ih

theorem mapFind_mapDelete_none {T : Type} (l : List (String × CacheEntry T))
    (k k0 : String) (h : mapFind l k = none) :
    mapFind (mapDelete l k0) k = none := by
  induction l with
  | nil => rfl
  | cons p t ih =>
    simp only [mapFind, mapDelete, List.filter, List.find?] at *
    by_cases hp : p.1 == k
    · simp [hp] at h
    · simp only [hp] at h
      by_cases h0 : p.1 == k0
      · simp only [h0, Bool.not_true, List.filter_cons_of_neg]
        exact ih h
      · simp only [h0, Bool.not_false, List.find?, hp]
        exact ih h

theorem mapSet_of_find_none {T : Type} (l : List (String × CacheEntry T))
    (k : String) (e : CacheEntry T) (h : mapFind l k = none) :
    mapSet l k e = l ++ [(k, e)] := by
  simp only [mapFind, Option.map_eq_none'] at h
  simp [mapSet, h]

theorem mapFind_append_self {T : Type} (l : List (String × CacheEntry T))
    (k : String) (e : CacheEntry T) (h : mapFind l k = none) :
    mapFind (l ++ [(k, e)]) k = some e := by
  induction l with
  | nil => simp [mapFind, List.find?]
  | cons p t ih =>
    simp only [mapFind, List.find?] at *
    by_cases hp : p.1 == k
    · simp [hp] at h
    · simp only [hp] at h ⊢
      exact ih h

theorem mapSet_length_le {T : Type} (l : List (String × CacheEntry T))
    (k : String) (e : CacheEntry T) :
    (mapSet l k e).length ≤ l.length + 1 := by
  simp only [mapSet]
  by_cases h : (l.find? (fun p => p.1 == k)).isSome
  · simp [h]
  · simp [h]

theorem mapDelete_length_le {T : Type} (l : List (String × CacheEntry T))
    (k : String) : (mapDelete l k).length ≤ l.length :=
  List.length_filter_le _ l

/-- After `Cache.set`, the key that was just set sits in a singleton suffix at
the end of the iteration order, after entries that do not contain it. -/
theorem set_entries_split {T : Type} (c : Cache T) (now : Nat) (k : String)
    (v : T) :
    ∃ l, (c.set now k v).entries = l ++ [(k, (⟨v, now⟩ : CacheEntry T))] ∧
      mapFind l k = none := by
  have hevict : ∀ (m : List (String × CacheEntry T)), mapFind m k = none →
      mapFind (if c.maxSize ≤ m.length then
                 (match m with
                  | [] => m
                  | (oldestKey, _) :: _ => mapDelete m oldestKey)
               else m) k = none := by
    intro m hm
    by_cases h : c.maxSize ≤ m.length
    · rw [if_pos h]
      cases m with
      | nil => exact hm
      | cons p t =>
        obtain ⟨k0, e0⟩ := p
        exact mapFind_mapDelete_none _ _ _ hm
    · rw [if_neg h]; exact hm
  simp only [Cache.set]
  set A := (if (mapFind c.entries k).isSome then mapDelete c.entries k
            else c.entries) with hAdef
  have hA : mapFind A k = none := by
    rw [hAdef]
    by_cases h : (mapFind c.entries k).isSome
    · rw [if_pos h]; exact mapFind_mapDelete _ _
    · rw [if_neg h]; exact Option.not_isSome_iff_eq_none.mp h
  rw [mapSet_of_find_none _ _ _ (hevict A hA)]
  exact ⟨_, rfl, hevict A hA⟩

/-- After `Cache.set`, looking up the key just set yields the fresh entry. -/
theorem mapFind_set_self {T : Type} (c : Cache T) (now : Nat) (k : String)
    (v : T) : mapFind (c.set now k v).entries k = some ⟨v, now⟩ := by
  obtain ⟨l, hl, hn⟩ := set_entries_split c now k v
  rw [hl]
  exact mapFind_append_self _ _ _ hn

/-- Concrete LRU scenario from the spec: on a fresh cache with `maxSize = 2`,
run `set a; set b; get a; set c` and report the value returned by the `get`,
the final key order, and the final lookup of `b`. -/
def lruScenario : Option Nat × List String × Option (CacheEntry Nat) :=
  let c0 : Cache Nat := Cache.init Nat 5 2
  let c1 := c0.set 0 "a" 1
  let c2 := c1.set 1 "b" 2
  let r := c2.get 2 "a"
  let c4 := r.2.set 3 "c" 3
  (r.1, c4.entries.map (fun p => p.1), mapFind c4.entries "b")

/-- C1: a `get` on a present, non-expired entry removes the entry and
re-inserts it at the end of the iteration order before returning its value, so
a `get` counts as a use for LRU eviction; in particular on a fresh cache with
`maxSize = 2` the sequence `set a; set b; get a; set c` returns `a`'s value,
leaves the key order `[a, c]`, and evicts `b`, not `a`. -/
theorem cache_get_lru_touch {T : Type} (c : Cache T) (now : Nat) (key : String)
    (e : CacheEntry T) (hfind : mapFind c.entries key = some e)
    (hfresh : ¬ c.ttl < now - e.timestamp) :
    c.get now key =
      (some e.data, { c with entries := mapDelete c.entries key ++ [(key, e)] }) ∧
    lruScenario = (some 1, ["a", "c"], none) := by
  constructor
  · unfold Cache.get
    rw [hfind]
    simp only [hfresh, if_false]
    rw [mapSet_of_find_none _ _ _ (mapFind_mapDelete _ _)]
  · decide

theorem cache_get_lru_touch_witness :
    (⟨[("k", ⟨7, 0⟩)], 1000, 10⟩ : Cache Nat).get 5 "k" =
      (some 7,
       ⟨mapDelete [("k", (⟨7, 0⟩ : CacheEntry Nat))] "k" ++ [("k", ⟨7, 0⟩)],
        1000, 10⟩) ∧
    lruScenario = (some 1, ["a", "c"], none) :=
  cache_get_lru_touch ⟨[("k", ⟨7, 0⟩)], 1000, 10⟩ 5 "k" ⟨7, 0⟩ (by decide)
    (by decide)

theorem mapDelete_cons_self_length {T : Type} (k0 : String)
    (e0 : CacheEntry T) (t : List (String × CacheEntry T)) :
    (mapDelete ((k0, e0) :: t) k0).length ≤ t.length := by
  simp only [mapDelete, List.filter, beq_self_eq_true, Bool.not_true]
  exact List.length_filter_le _ t

/-- C2 counterexample: on a cache constructed with `maxSize = 0`, a single
`set` leaves one entry in the map, so `|entries| ≤ maxSize` fails. -/
theorem cache_maxSize_zero_cex :
    ¬ (((Cache.init Nat 5 0).set 0 "a" 1).entries.length ≤
        (Cache.init Nat 5 0).maxSize) := by
  decide

/-- C2 amended: for every cache with `maxSize ≥ 1`, `set` preserves the bound
`|entries| ≤ maxSize` (evicting the single first entry in iteration order when
a brand-new key would exceed the bound); with `maxSize = 0` the bound is
violated by the first `set` (see the counterexample). -/
theorem cache_set_size_bound :
    (∀ (c : Cache Nat) (now : Nat) (key : String) (v : Nat),
        c.entries.length ≤ c.maxSize → 1 ≤ c.maxSize →
        (c.set now key v).entries.length ≤ c.maxSize) ∧
    (∀ (c : Cache Nat) (now : Nat) (key k0 : String) (v : Nat)
        (e0 : CacheEntry Nat),
        mapFind c.entries key = none → c.maxSize ≤ c.entries.length →
        c.entries.head? = some (k0, e0) →
        (c.set now key v).entries =
          mapDelete c.entries k0 ++ [(key, (⟨v, now⟩ : CacheEntry Nat))]) := by
  constructor
  · intro c now key v hinv hpos
    obtain ⟨es, ttl, ms⟩ := c
    simp only at hinv hpos
    simp only [Cache.set]
    have hAlen : (if (mapFind es key).isSome = true then mapDelete es key
                  else es).length ≤ es.length := by
      by_cases h : (mapFind es key).isSome = true
      · rw [if_pos h]; exact mapDelete_length_le _ _
      · rw [if_neg h]
    generalize hG : (if (mapFind es key).isSome = true then mapDelete es key
                     else es) = A at hAlen ⊢
    clear hG
    by_cases h : ms ≤ A.length
    · rw [if_pos h]
      cases A with
      | nil =>
        have h2 := mapSet_length_le ([] : List (String × CacheEntry Nat)) key
          (⟨v, now⟩ : CacheEntry Nat)
        show (mapSet [] key (⟨v, now⟩ : CacheEntry Nat)).length ≤ ms
        simp only [List.length_nil] at h h2
        omega
      | cons p t =>
        obtain ⟨k0, e0⟩ := p
        have h1 := mapDelete_cons_self_length k0 e0 t
        have h2 := mapSet_length_le (mapDelete ((k0, e0) :: t) k0) key
          (⟨v, now⟩ : CacheEntry Nat)
        simp only [List.length_cons] at hAlen
        show (mapSet (mapDelete ((k0, e0) :: t) k0) key
          (⟨v, now⟩ : CacheEntry Nat)).length ≤ ms
        omega
    · rw [if_neg h]
      have h2 := mapSet_length_le A key (⟨v, now⟩ : CacheEntry Nat)
      omega
  · intro c now key k0 v e0 hfind hlen hhead
    obtain ⟨es, ttl, ms⟩ := c
    simp only at hfind hlen hhead ⊢
    cases es with
    | nil => simp at hhead
    | cons p t =>
      obtain ⟨k1, e1⟩ := p
      simp only [List.head?] at hhead
      have hk : k1 = k0 ∧ e1 = e0 := by
        constructor <;> [exact congrArg Prod.fst (Option.some.inj hhead);
          exact congrArg Prod.snd (Option.some.inj hhead)]
      obtain ⟨hk1, he1⟩ := hk
      subst hk1; subst he1
      simp only [Cache.set]
      have hns : ¬ ((mapFind ((k1, e1) :: t) key).isSome = true) := by
        rw [hfind]; simp
      rw [if_neg hns, if_pos hlen]
      have hdel : mapFind (mapDelete ((k1, e1) :: t) k1) key = none :=
        mapFind_mapDelete_none _ _ _ hfind
      show mapSet (mapDelete ((k1, e1) :: t) k1) key
        (⟨v, now⟩ : CacheEntry Nat) = _
      rw [mapSet_of_find_none _ _ _ hdel]

theorem cache_set_size_bound_witness :
    (((Cache.init Nat 5 2).set 0 "a" 1).entries.length ≤
      (Cache.init Nat 5 2).maxSize) ∧
    ((⟨[("a", ⟨1, 0⟩), ("b", ⟨2, 1⟩)], 300000, 2⟩ : Cache Nat).set 2 "c" 3).entries =
      mapDelete [("a", (⟨1, 0⟩ : CacheEntry Nat)), ("b", ⟨2, 1⟩)] "a" ++
        [("c", ⟨3, 2⟩)] :=
  ⟨cache_set_size_bound.1 (Cache.init Nat 5 2) 0 "a" 1 (by decide) (by decide),
   cache_set_size_bound.2 ⟨[("a", ⟨1, 0⟩), ("b", ⟨2, 1⟩)], 300000, 2⟩ 2 "c" "a" 3
     ⟨1, 0⟩ (by decide) (by decide) (by decide)⟩

/-- C8: after `set k v` at time `t1`, a `get k` at a time `t2` with more than
`ttl` elapsed returns `none` and removes the entry, and a subsequent `has k`
(at any time `t3`) also returns `false`: the entry is gone, not merely
hidden. -/
theorem cache_ttl_expiry {T : Type} (c : Cache T) (t1 t2 t3 : Nat) (k : String)
    (v : T) (h : c.ttl < t2 - t1) :
    ((c.set t1 k v).get t2 k).1 = none ∧
    mapFind ((c.set t1 k v).get t2 k).2.entries k = none ∧
    (((c.set t1 k v).get t2 k).2.has t3 k).1 = false := by
  have hfind := mapFind_set_self c t1 k v
  have httl : (c.set t1 k v).ttl = c.ttl := rfl
  have hget : (c.set t1 k v).get t2 k =
      (none, { c.set t1 k v with
               entries := mapDelete (c.set t1 k v).entries k }) := by
    unfold Cache.get
    rw [hfind]
    simp only [httl]
    rw [if_pos h]
  rw [hget]
  refine ⟨rfl, mapFind_mapDelete _ _, ?_⟩
  unfold Cache.has
  simp only [mapFind_mapDelete]

theorem cache_ttl_expiry_witness :
    (((⟨[], 1000, 10⟩ : Cache Nat).set 0 "k" 7).get 2000 "k").1 = none ∧
    mapFind (((⟨[], 1000, 10⟩ : Cache Nat).set 0 "k" 7).get 2000 "k").2.entries
      "k" = none ∧
    ((((⟨[], 1000, 10⟩ : Cache Nat).set 0 "k" 7).get 2000 "k").2.has 3000
      "k").1 = false :=
  cache_ttl_expiry ⟨[], 1000, 10⟩ 0 2000 3000 "k" 7 (by decide)

/-- One run of the `for` loop of `HttpClient.requestWithRetry`
(src/http/client.ts lines 134-151).  `attempts i` is the outcome of the
`i`-th (0-based) underlying `this.request` call; the returned list records
the backoff sleeps `1000 * (i + 1)` ms performed between attempts.  `fuel`
counts the remaining loop iterations; `requestWithRetry` supplies
`retries + 1`, so the fuel-exhausted branch corresponds to the unreachable
`throw new Error('重试失败')` after the loop. -/
def retryLoop {T : Type} (attempts : Nat → Except String T) (retries : Nat) :
    Nat → Nat → List Nat → Except String T × List Nat
  | _, 0, sleeps => (.error "重试失败", sleeps)
  | i, fuel + 1, sleeps =>
    match attempts i with
    | .ok v => (.ok v, sleeps)
    | .error e =>
      if i = retries then (.error e, sleeps)
      else retryLoop attempts retries (i + 1) fuel (sleeps ++ [1000 * (i + 1)])

/-- `HttpClient.requestWithRetry(url, options, retries = 2)`: run the attempt
loop from `i = 0` with one loop iteration available per attempt. -/
def requestWithRetry {T : Type} (attempts : Nat → Except String T)
    (retries : Nat) : Except String T × List Nat :=
  retryLoop attempts retries 0 (retries + 1) []

/-- C7: `requestWithRetry` with `retries = 2` retries on any thrown error
with backoff sleeps of 1000 ms then 2000 ms between attempts: when the first
two attempts throw and the third succeeds it returns the successful result,
and when all three attempts throw it re-throws the third error unchanged
after the last attempt. -/
theorem requestWithRetry_retry_behavior {T : Type}
    (attempts : Nat → Except String T) (e0 e1 e2 : String) (v : T)
    (h0 : attempts 0 = .error e0) (h1 : attempts 1 = .error e1) :
    (attempts 2 = .ok v → requestWithRetry attempts 2 = (.ok v, [1000, 2000])) ∧
    (attempts 2 = .error e2 →
      requestWithRetry attempts 2 = (.error e2, [1000, 2000])) := by
  constructor
  · intro h2
    simp [requestWithRetry, retryLoop, h0, h1, h2]
  · intro h2
    simp [requestWithRetry, retryLoop, h0, h1, h2]

theorem requestWithRetry_retry_behavior_witness :
    (requestWithRetry
      (fun i => if i = 0 then .error "boom0" else
                if i = 1 then .error "boom1" else .ok 42) 2 =
      (.ok 42, [1000, 2000])) ∧
    (requestWithRetry
      (fun i => if i = 0 then .error "boom0" else
                if i = 1 then .error "boom1" else .error "boom2") 2 =
      ((.error "boom2" : Except String Nat), [1000, 2000])) :=
  ⟨(requestWithRetry_retry_behavior
      (fun i => if i = 0 then .error "boom0" else
                if i = 1 then .error "boom1" else .ok 42) "boom0" "boom1"
      "unused" 42 rfl rfl).1 rfl,
   (requestWithRetry_retry_behavior
      (fun i => if i = 0 then .error "boom0" else
                if i = 1 then .error "boom1" else .error "boom2") "boom0"
      "boom1" "boom2" 42 rfl rfl).2 rfl⟩

/-- Issue record (src/core/types.ts). -/
structure Issue where
  id : Nat
  title : String
  number : Nat
  state : String
  url : String
deriving DecidableEq

/-- Raw GitLab issue JSON fields read by `GitLabPlatform.fetchIssues`. -/
structure GitLabRawIssue where
  iid : Nat
  title : String
  state : String
  web_url : String
deriving DecidableEq

/-- Parsed 2xx JSON body of one GitLab page response: either an array of raw
issues, or a JSON value that is not an array (e.g. an error object). -/
inductive GitLabJson where
  | arr (issues : List GitLabRawIssue)
  | nonArray
deriving DecidableEq

/-- Raw Gitee issue JSON fields read by `GiteePlatform.fetchIssues`. -/
structure GiteeRawIssue where
  id : Nat
  number : Nat
  title : String
  state : String
  html_url : String
deriving DecidableEq

/-- Parsed 2xx JSON body of one Gitee page response. -/
inductive GiteeJson where
  | arr (issues : List GiteeRawIssue)
  | nonArray
deriving DecidableEq

/-- The `while` loop of `GitLabPlatform.fetchIssues` (src/platforms/gitlab.ts
lines 69-100).  `server page` is the outcome of `requestWithRetry` for that
page: a thrown error, or the parsed JSON body.  Each issued request is
recorded by its `(page, per_page)` query parameters (the URL prefix, project
path encoding and auth header do not affect the loop).  `fuel` counts the
remaining loop iterations; the caller supplies `maxIssues + 1`, which is
never exhausted since every continuing iteration appends at least `perPage`
issues, so the fuel-zero branch is unreachable there. -/
def gitLabFetchLoop (server : Nat → Except String GitLabJson)
    (maxIssues perPage : Nat) :
    Nat → Nat → List Issue → List (Nat × Nat) →
    Except String (List Issue) × List (Nat × Nat)
  | 0, _page, allIssues, reqs => (.ok allIssues, reqs)
  | fuel + 1, page, allIssues, reqs =>
    if allIssues.length < maxIssues then
      let reqs1 := reqs ++ [(page, perPage)]
      match server page with
      | .error e => (.error e, reqs1)
      | .ok .nonArray => (.ok allIssues, reqs1)
      | .ok (.arr issues) =>
        if issues.length = 0 then (.ok allIssues, reqs1)
        else
          let converted : List Issue := issues.map (fun issue =>
            ⟨issue.iid, issue.title, issue.iid, issue.state, issue.web_url⟩)
          let allIssues1 := allIssues ++ converted
          if issues.length < perPage then (.ok allIssues1, reqs1)
          else
            gitLabFetchLoop server maxIssues perPage fuel (page + 1)
              allIssues1 reqs1
    else (.ok allIssues, reqs)

/-- `GitLabPlatform.fetchIssues(repoInfo, accessToken, maxIssues)`
(src/platforms/gitlab.ts lines 62-103): request `min(maxIssues, 50)` issues
per page starting from page 1, then truncate with `slice(0, maxIssues)`. -/
def GitLabPlatform.fetchIssues (server : Nat → Except String GitLabJson)
    (maxIssues : Nat) : Except String (List Issue) × List (Nat × Nat) :=
  let perPage := min maxIssues 50
  match gitLabFetchLoop server maxIssues perPage (maxIssues + 1) 1 [] [] with
  | (.ok allIssues, reqs) => (.ok (allIssues.take maxIssues), reqs)
  | r => r

/-- The `while` loop of `GiteePlatform.fetchIssues` (src/platforms/gitee.ts
lines 47-78), structured exactly like the GitLab one but with the Gitee
field normalization (`id`/`number`/`html_url`). -/
def giteeFetchLoop (server : Nat → Except String GiteeJson)
    (maxIssues perPage : Nat) :
    Nat → Nat → List Issue → List (Nat × Nat) →
    Except String (List Issue) × List (Nat × Nat)
  | 0, _page, allIssues, reqs => (.ok allIssues, reqs)
  | fuel + 1, page, allIssues, reqs =>
    if allIssues.length < maxIssues then
      let reqs1 := reqs ++ [(page, perPage)]
      match server page with
      | .error e => (.error e, reqs1)
      | .ok .nonArray => (.ok allIssues, reqs1)
      | .ok (.arr issues) =>
        if issues.length = 0 then (.ok allIssues, reqs1)
        else
          let converted : List Issue := issues.map (fun issue =>
            ⟨issue.id, issue.title, issue.number, issue.state, issue.html_url⟩)
          let allIssues1 := allIssues ++ converted
          if issues.length < perPage then (.ok allIssues1, reqs1)
          else
            giteeFetchLoop server maxIssues perPage fuel (page + 1)
              allIssues1 reqs1
    else (.ok allIssues, reqs)

/-- `GiteePlatform.fetchIssues(repoInfo, accessToken, maxIssues)`
(src/platforms/gitee.ts lines 42-81). -/
def GiteePlatform.fetchIssues (server : Nat → Except String GiteeJson)
    (maxIssues : Nat) : Except String (List Issue) × List (Nat × Nat) :=
  let perPage := min maxIssues 50
  match giteeFetchLoop server maxIssues perPage (maxIssues + 1) 1 [] [] with
  | (.ok allIssues, reqs) => (.ok (allIssues.take maxIssues), reqs)
  | r => r

/-- One full GitLab page of exactly 50 open issues. -/
def gitLabFullPage : List GitLabRawIssue :=
  (List.range 50).map (fun i => ⟨i, "t", "opened", "u"⟩)

/-- The normalized form of `gitLabFullPage`. -/
def gitLabFullPageConv : List Issue :=
  (List.range 50).map (fun i => ⟨i, "t", i, "opened", "u"⟩)

/-- One full Gitee page of exactly 50 open issues. -/
def giteeFullPage : List GiteeRawIssue :=
  (List.range 50).map (fun i => ⟨i, i, "t", "open", "h"⟩)

/-- The normalized form of `giteeFullPage`. -/
def giteeFullPageConv : List Issue :=
  (List.range 50).map (fun i => ⟨i, "t", i, "open", "h"⟩)

/-- A short (10-issue) GitLab page. -/
def gitLabShortPage : List GitLabRawIssue :=
  (List.range 10).map (fun i => ⟨i, "t", "opened", "u"⟩)

/-- C3: against an endpoint that always returns exactly `perPage` items,
`fetchIssues` with `maxCount = 120` issues exactly 3 sequential page requests
of `min(120, 50) = 50` items each, stops once the accumulated count reaches
`maxCount`, and returns exactly the first 120 of the fetched issues (for both
the GitLab and the Gitee implementation); on a page shorter than `perPage`,
or an empty page, it stops paging there. -/
theorem fetchIssues_pagination :
    GitLabPlatform.fetchIssues (fun _ => .ok (.arr gitLabFullPage)) 120 =
      (.ok ((gitLabFullPageConv ++ gitLabFullPageConv ++
             gitLabFullPageConv).take 120), [(1, 50), (2, 50), (3, 50)]) ∧
    ((gitLabFullPageConv ++ gitLabFullPageConv ++
      gitLabFullPageConv).take 120).length = 120 ∧
    GiteePlatform.fetchIssues (fun _ => .ok (.arr giteeFullPage)) 120 =
      (.ok ((giteeFullPageConv ++ giteeFullPageConv ++
             giteeFullPageConv).take 120), [(1, 50), (2, 50), (3, 50)]) ∧
    GitLabPlatform.fetchIssues
      (fun page => if page = 1 then .ok (.arr gitLabFullPage)
                   else .ok (.arr gitLabShortPage)) 120 =
      (.ok (gitLabFullPageConv ++
            (List.range 10).map (fun i => ⟨i, "t", i, "opened", "u"⟩)),
       [(1, 50), (2, 50)]) ∧
    GitLabPlatform.fetchIssues
      (fun page => if page = 1 then .ok (.arr gitLabFullPage)
                   else .ok (.arr [])) 120 =
      (.ok gitLabFullPageConv, [(1, 50), (2, 50)]) := by
  refine ⟨rfl, rfl, rfl, rfl, rfl⟩

/-- C10: when a 2xx response parses to JSON that is not an array, the paging
loop stops there and returns the issues accumulated from earlier pages — the
empty list when it was the first page — rather than propagating any error;
shown generally for a first-page non-array (GitLab and Gitee) and concretely
for a second-page non-array. -/
theorem fetchIssues_nonArray_stops (server : Nat → Except String GitLabJson)
    (gserver : Nat → Except String GiteeJson) (maxIssues : Nat)
    (hpos : 0 < maxIssues) (h1 : server 1 = .ok .nonArray)
    (hg1 : gserver 1 = .ok .nonArray) :
    GitLabPlatform.fetchIssues server maxIssues =
      (.ok [], [(1, min maxIssues 50)]) ∧
    GiteePlatform.fetchIssues gserver maxIssues =
      (.ok [], [(1, min maxIssues 50)]) ∧
    GitLabPlatform.fetchIssues
      (fun page => if page = 1 then .ok (.arr gitLabFullPage)
                   else .ok .nonArray) 120 =
      (.ok gitLabFullPageConv, [(1, 50), (2, 50)]) := by
  refine ⟨?_, ?_, rfl⟩
  · simp [GitLabPlatform.fetchIssues, gitLabFetchLoop, h1, hpos]
  · simp [GiteePlatform.fetchIssues, giteeFetchLoop, hg1, hpos]

theorem fetchIssues_nonArray_stops_witness :
    (GitLabPlatform.fetchIssues (fun _ => .ok .nonArray) 7 =
      (.ok [], [(1, min 7 50)]) ∧
     GiteePlatform.fetchIssues (fun _ => .ok .nonArray) 7 =
      (.ok [], [(1, min 7 50)]) ∧
     GitLabPlatform.fetchIssues
      (fun page => if page = 1 then .ok (.arr gitLabFullPage)
                   else .ok .nonArray) 120 =
      (.ok gitLabFullPageConv, [(1, 50), (2, 50)])) :=
  fetchIssues_nonArray_stops (fun _ => .ok .nonArray) (fun _ => .ok .nonArray)
    7 (by decide) rfl rfl

/-- `RepoInfo` (src/core/types.ts). -/
structure RepoInfo where
  platform : String
  owner : String
  repo : String
  baseUrl : String
  hostUrl : Option String
deriving DecidableEq

/-- Configuration and environment sources consulted by token resolution:
the `vscode.workspace.getConfiguration('commitHelper').get(...)` values, the
`process.env` variables (`LOCAL_GITLAB_TOKEN`, `GITLAB_TOKEN`, `GITEE_TOKEN`,
`GITHUB_TOKEN`), and the full-configuration lookup
`getConfiguration().get('commitHelper.' ++ key)` used by `getTokenForHost`.
`none` stands for `undefined`. -/
structure TokenEnv where
  localGitlabToken : Option String
  gitlabToken : Option String
  giteeToken : Option String
  githubToken : Option String
  fullConfig : String → Option String
  envLocalGitlabToken : Option String
  envGitlabToken : Option String
  envGiteeToken : Option String
  envGithubToken : Option String

/-- Hostname extraction of `new URL(hostUrl).hostname`, restricted to the
`http(s)://host[:port][/...]` URLs this codebase synthesizes; on a string
without such a scheme the `URL` constructor throws, which `getTokenForHost`
catches — modelled as `none`. -/
def urlHostname (s : String) : Option String :=
  let rest :=
    if "https://".isPrefixOf s then some (s.drop 8)
    else if "http://".isPrefixOf s then some (s.drop 7)
    else none
  match rest with
  | none => none
  | some r =>
    let host := r.takeWhile (fun c => !(c == ':' || c == '/'))
    if host.isEmpty then none else some host

/-- The `for` loop of `getTokenForHost`: return the first truthy token among
the `commitHelper.`-prefixed candidate keys. -/
def firstTruthyKey (te : TokenEnv) : List String → Option String
  | [] => none
  | key :: rest =>
    let token := te.fullConfig ("commitHelper." ++ key)
    if truthy token then token else firstTruthyKey te rest

/-- `GitLabPlatform.getTokenForHost` (src/platforms/gitlab.ts lines
108-130): try four host-keyed setting shapes for backward compatibility. -/
def getTokenForHost (te : TokenEnv) (hostUrl : String) : Option String :=
  match urlHostname hostUrl with
  | none => none
  | some hostname =>
    firstTruthyKey te
      ["gitlabToken." ++ hostname, "localGitlabToken." ++ hostname,
       "gitlab." ++ hostname ++ ".token", "tokens." ++ hostname]

/-- Token resolution of `GitLabPlatform.getAccessToken`
(src/platforms/gitlab.ts lines 33-52), after the cache check: the
self-hosted variant tries the local setting/env var, then the generic GitLab
setting/env var, then the host-specific settings; `gitlab.com` only the
generic setting/env var. -/
def gitlabResolveToken (isLocal : Bool) (te : TokenEnv) (ri : RepoInfo) :
    Option String :=
  if isLocal then
    let t1 := jsOr te.localGitlabToken te.envLocalGitlabToken
    let t2 := if truthy t1 then t1 else jsOr te.gitlabToken te.envGitlabToken
    if !(truthy t2) && truthy ri.hostUrl then
      getTokenForHost te (ri.hostUrl.getD "")
    else t2
  else
    jsOr te.gitlabToken te.envGitlabToken

/-- `GitLabPlatform.getAccessToken` (src/platforms/gitlab.ts lines 25-60):
check the instance's token cache under `token-<name>-<hostUrl || default>`,
otherwise resolve from settings/environment and cache a truthy result. -/
def GitLabPlatform.getAccessToken (isLocal : Bool) (te : TokenEnv)
    (tc : Cache String) (now : Nat) (ri : RepoInfo) :
    Option String × Cache String :=
  let name := if isLocal then "local-gitlab" else "gitlab"
  let cacheKey := "token-" ++ name ++ "-" ++
    (if truthy ri.hostUrl then ri.hostUrl.getD "" else "default")
  match tc.get now cacheKey with
  | (cached, tc1) =>
    if truthy cached then (cached, tc1)
    else
      let token := gitlabResolveToken isLocal te ri
      let tc2 := if truthy token then tc1.set now cacheKey (token.getD "")
                 else tc1
      (token, tc2)

/-- `GiteePlatform.getAccessToken` (src/platforms/gitee.ts lines 23-40):
cache under `token-gitee`, else the explicit setting, else `GITEE_TOKEN`. -/
def GiteePlatform.getAccessToken (te : TokenEnv) (tc : Cache String)
    (now : Nat) : Option String × Cache String :=
  let cacheKey := "token-gitee"
  match tc.get now cacheKey with
  | (cached, tc1) =>
    if truthy cached then (cached, tc1)
    else
      let token := jsOr te.giteeToken te.envGiteeToken
      let tc2 := if truthy token then tc1.set now cacheKey (token.getD "")
                 else tc1
      (token, tc2)

/-- Modelled from the spec: `GitHubPlatform.getAccessToken`
(src/platforms/github.ts is referenced by the factory but missing from the
sources).  Per spec section 4.4, a non-self-hosted forge resolves (1) the
explicit per-forge setting, then (2) the environment variable, and caches a
successful resolution in the platform's private token cache. -/
def GitHubPlatform.getAccessToken (te : TokenEnv) (tc : Cache String)
    (now : Nat) : Option String × Cache String :=
  let cacheKey := "token-github"
  match tc.get now cacheKey with
  | (cached, tc1) =>
    if truthy cached then (cached, tc1)
    else
      let token := jsOr te.githubToken te.envGithubToken
      let tc2 := if truthy token then tc1.set now cacheKey (token.getD "")
                 else tc1
      (token, tc2)

/-- Modelled from the spec: raw GitHub issue fields (a numeric `id` and
`number`; src/platforms/github.ts is missing from the sources). -/
structure GitHubRawIssue where
  id : Nat
  number : Nat
  title : String
  state : String
  html_url : String
deriving DecidableEq

/-- Modelled from the spec: parsed 2xx JSON body of one GitHub page. -/
inductive GitHubJson where
  | arr (issues : List GitHubRawIssue)
  | nonArray
deriving DecidableEq

/-- Modelled from the spec: the paging loop of `GitHubPlatform.fetchIssues`,
with the same loop contract as the other forges (spec section 4.4). -/
def gitHubFetchLoop (server : Nat → Except String GitHubJson)
    (maxIssues perPage : Nat) :
    Nat → Nat → List Issue → List (Nat × Nat) →
    Except String (List Issue) × List (Nat × Nat)
  | 0, _page, allIssues, reqs => (.ok allIssues, reqs)
  | fuel + 1, page, allIssues, reqs =>
    if allIssues.length < maxIssues then
      let reqs1 := reqs ++ [(page, perPage)]
      match server page with
      | .error e => (.error e, reqs1)
      | .ok .nonArray => (.ok allIssues, reqs1)
      | .ok (.arr issues) =>
        if issues.length = 0 then (.ok allIssues, reqs1)
        else
          let converted : List Issue := issues.map (fun issue =>
            ⟨issue.id, issue.title, issue.number, issue.state, issue.html_url⟩)
          let allIssues1 := allIssues ++ converted
          if issues.length < perPage then (.ok allIssues1, reqs1)
          else
            gitHubFetchLoop server maxIssues perPage fuel (page + 1)
              allIssues1 reqs1
    else (.ok allIssues, reqs)

/-- Modelled from the spec: `GitHubPlatform.fetchIssues`. -/
def GitHubPlatform.fetchIssues (server : Nat → Except String GitHubJson)
    (maxIssues : Nat) : Except String (List Issue) × List (Nat × Nat) :=
  let perPage := min maxIssues 50
  match gitHubFetchLoop server maxIssues perPage (maxIssues + 1) 1 [] [] with
  | (.ok allIssues, reqs) => (.ok (allIssues.take maxIssues), reqs)
  | r => r

/-- The platform registry of `PlatformFactory` (src/platforms/factory.ts):
`github`, `gitlab`, `local-gitlab` (a `GitLabPlatform` constructed with the
local flag) and `gitee`. -/
inductive PlatformId where
  | github
  | gitlab
  | localGitlab
  | gitee
deriving DecidableEq

/-- `PlatformFactory.getPlatform` (src/platforms/factory.ts lines 30-36). -/
def PlatformFactory.getPlatform (name : String) : Option PlatformId :=
  if name == "github" then some .github
  else if name == "gitlab" then some .gitlab
  else if name == "local-gitlab" then some .localGitlab
  else if name == "gitee" then some .gitee
  else none

/-- State the service layer acts on: the shared issue cache of `AppContext`
plus the private token cache of each registered platform instance. -/
structure ServiceState where
  issueCache : Cache (List Issue)
  githubTokenCache : Cache String
  gitlabTokenCache : Cache String
  localGitlabTokenCache : Cache String
  giteeTokenCache : Cache String
deriving DecidableEq

/-- Page responses of the forge endpoints, one server per registered
platform instance (the outcome of `requestWithRetry` for each page). -/
structure Servers where
  github : Nat → Except String GitHubJson
  gitlab : Nat → Except String GitLabJson
  localGitlab : Nat → Except String GitLabJson
  gitee : Nat → Except String GiteeJson

/-- Dispatch of `platform.getAccessToken(repoInfo)`, updating that
platform's private token cache inside the service state. -/
def platformGetAccessToken (pid : PlatformId) (te : TokenEnv)
    (st : ServiceState) (now : Nat) (ri : RepoInfo) :
    Option String × ServiceState :=
  match pid with
  | .github =>
    let r := GitHubPlatform.getAccessToken te st.githubTokenCache now
    (r.1, { st with githubTokenCache := r.2 })
  | .gitlab =>
    let r := GitLabPlatform.getAccessToken false te st.gitlabTokenCache now ri
    (r.1, { st with gitlabTokenCache := r.2 })
  | .localGitlab =>
    let r := GitLabPlatform.getAccessToken true te st.localGitlabTokenCache
      now ri
    (r.1, { st with localGitlabTokenCache := r.2 })
  | .gitee =>
    let r := GiteePlatform.getAccessToken te st.giteeTokenCache now
    (r.1, { st with giteeTokenCache := r.2 })

/-- Dispatch of `platform.fetchIssues(repoInfo, accessToken, maxIssues)`. -/
def platformFetchIssues (pid : PlatformId) (sv : Servers) (maxIssues : Nat) :
    Except String (List Issue) × List (Nat × Nat) :=
  match pid with
  | .github => GitHubPlatform.fetchIssues sv.github maxIssues
  | .gitlab => GitLabPlatform.fetchIssues sv.gitlab maxIssues
  | .localGitlab => GitLabPlatform.fetchIssues sv.localGitlab maxIssues
  | .gitee => GiteePlatform.fetchIssues sv.gitee maxIssues

/-- `AppContext.getMaxIssues()`: the configured `maxIssues: 50`
(src/core/context.ts). -/
def appMaxIssues : Nat := 50

/-- The issue-cache key `platform-owner-repo` built by
`CommitHelperService.fetchIssues` (src/core/services.ts line 21). -/
def serviceCacheKey (ri : RepoInfo) : String :=
  ri.platform ++ "-" ++ ri.owner ++ "-" ++ ri.repo

/-- `CommitHelperService.fetchIssues(repoInfo)` (src/core/services.ts lines
20-56): consult the issue cache (a JS array is always truthy, so any cached
list is returned); on a miss resolve the platform (an unknown platform name
is the `不支持的平台` error), then its access token (a falsy token is the hard
`未找到 ... 的访问令牌` error), then fetch the issues and cache the result. -/
def CommitHelperService.fetchIssues (st : ServiceState) (te : TokenEnv)
    (sv : Servers) (now : Nat) (ri : RepoInfo) :
    Except String (List Issue) × ServiceState :=
  let cacheKey := serviceCacheKey ri
  match st.issueCache.get now cacheKey with
  | (some cached, c1) => (.ok cached, { st with issueCache := c1 })
  | (none, c1) =>
    let st1 := { st with issueCache := c1 }
    match PlatformFactory.getPlatform ri.platform with
    | none => (.error ("不支持的平台: " ++ ri.platform), st1)
    | some pid =>
      let r := platformGetAccessToken pid te st1 now ri
      let accessToken := r.1
      let st2 := r.2
      if truthy accessToken then
        match (platformFetchIssues pid sv appMaxIssues).1 with
        | .ok issues =>
          (.ok issues,
           { st2 with issueCache := st2.issueCache.set now cacheKey issues })
        | .error e => (.error e, st2)
      else
        (.error ("未找到 " ++ ri.platform ++ " 的访问令牌，请在设置中配置"), st2)

/-- Configuration/environment with no token configured anywhere: no explicit
setting, no environment variable, no fallback, no host-specific setting. -/
def emptyTokenEnv : TokenEnv :=
  ⟨none, none, none, none, fun _ => none, none, none, none, none⟩

theorem getTokenForHost_empty (h : String) :
    getTokenForHost emptyTokenEnv h = none := by
  unfold getTokenForHost
  cases urlHostname h with
  | none => rfl
  | some hostname => simp [firstTruthyKey, emptyTokenEnv, truthy]

theorem gitlabResolveToken_empty (b : Bool) (ri : RepoInfo) :
    gitlabResolveToken b emptyTokenEnv ri = none := by
  have h1 : emptyTokenEnv.localGitlabToken = none := rfl
  have h2 : emptyTokenEnv.gitlabToken = none := rfl
  have h3 : emptyTokenEnv.envLocalGitlabToken = none := rfl
  have h4 : emptyTokenEnv.envGitlabToken = none := rfl
  cases b <;>
    simp [gitlabResolveToken, h1, h2, h3, h4, jsOr, truthy,
      getTokenForHost_empty]

theorem gitlab_getAccessToken_empty (b : Bool) (ttl ms now : Nat)
    (ri : RepoInfo) :
    GitLabPlatform.getAccessToken b emptyTokenEnv ⟨[], ttl, ms⟩ now ri =
      (none, ⟨[], ttl, ms⟩) := by
  unfold GitLabPlatform.getAccessToken
  simp [Cache.get, mapFind, truthy, gitlabResolveToken_empty]

theorem gitee_getAccessToken_empty (ttl ms now : Nat) :
    GiteePlatform.getAccessToken emptyTokenEnv ⟨[], ttl, ms⟩ now =
      (none, ⟨[], ttl, ms⟩) := by
  unfold GiteePlatform.getAccessToken
  simp [Cache.get, mapFind, truthy, emptyTokenEnv, jsOr]

theorem github_getAccessToken_empty (ttl ms now : Nat) :
    GitHubPlatform.getAccessToken emptyTokenEnv ⟨[], ttl, ms⟩ now =
      (none, ⟨[], ttl, ms⟩) := by
  unfold GitHubPlatform.getAccessToken
  simp [Cache.get, mapFind, truthy, emptyTokenEnv, jsOr]

/-- Service state whose platform token caches are all empty (a freshly
constructed `PlatformFactory`). -/
def freshTokenCaches (ic : Cache (List Issue))
    (a1 a2 b1 b2 c1 c2 d1 d2 : Nat) : ServiceState :=
  ⟨ic, ⟨[], a1, a2⟩, ⟨[], b1, b2⟩, ⟨[], c1, c2⟩, ⟨[], d1, d2⟩⟩

/-- C4: when no access token is resolvable for the repository's forge (no
explicit setting, no environment variable, and for the self-hosted variant no
fallback and no host-specific setting) and the issue cache misses, the
service's `fetchIssues` throws the hard, user-actionable
`未找到 ... 的访问令牌` error; it never returns an empty issue list in place of
that error. -/
theorem service_missing_token_throws (ic : Cache (List Issue))
    (a1 a2 b1 b2 c1 c2 d1 d2 now : Nat) (sv : Servers) (ri : RepoInfo)
    (pid : PlatformId)
    (hplat : PlatformFactory.getPlatform ri.platform = some pid)
    (hmiss : (ic.get now (serviceCacheKey ri)).1 = none) :
    (CommitHelperService.fetchIssues
        (freshTokenCaches ic a1 a2 b1 b2 c1 c2 d1 d2) emptyTokenEnv sv now
        ri).1 =
      .error ("未找到 " ++ ri.platform ++ " 的访问令牌，请在设置中配置") ∧
    ∀ l, (CommitHelperService.fetchIssues
        (freshTokenCaches ic a1 a2 b1 b2 c1 c2 d1 d2) emptyTokenEnv sv now
        ri).1 ≠ .ok l := by
  have hmain : (CommitHelperService.fetchIssues
      (freshTokenCaches ic a1 a2 b1 b2 c1 c2 d1 d2) emptyTokenEnv sv now
      ri).1 =
      .error ("未找到 " ++ ri.platform ++ " 的访问令牌，请在设置中配置") := by
    unfold CommitHelperService.fetchIssues freshTokenCaches
    rcases hE : ic.get now (serviceCacheKey ri) with ⟨r, cc⟩
    rw [hE] at hmiss
    simp only at hmiss
    subst hmiss
    simp only [hE, hplat]
    cases pid <;>
      simp [platformGetAccessToken, gitlab_getAccessToken_empty,
        gitee_getAccessToken_empty, github_getAccessToken_empty, truthy]
  refine ⟨hmain, ?_⟩
  intro l hcontra
  rw [hmain] at hcontra
  exact Except.noConfusion hcontra

/-- Trivial servers: every page request yields a non-array body. -/
def svTrivial : Servers :=
  ⟨fun _ => .ok .nonArray, fun _ => .ok .nonArray, fun _ => .ok .nonArray,
   fun _ => .ok .nonArray⟩

/-- RepoInfo of a gitlab.com repository, as the parser produces it. -/
def riGitlab : RepoInfo :=
  ⟨"gitlab", "acme", "widget", "https://gitlab.com/api/v4",
   some "https://gitlab.com"⟩

theorem service_missing_token_throws_witness :
    (CommitHelperService.fetchIssues
        (freshTokenCaches ⟨[], 600000, 50⟩ 3600000 100 3600000 100 3600000
          100 3600000 100) emptyTokenEnv svTrivial 0 riGitlab).1 =
      .error ("未找到 " ++ riGitlab.platform ++
        " 的访问令牌，请在设置中配置") ∧
    ∀ l, (CommitHelperService.fetchIssues
        (freshTokenCaches ⟨[], 600000, 50⟩ 3600000 100 3600000 100 3600000
          100 3600000 100) emptyTokenEnv svTrivial 0 riGitlab).1 ≠ .ok l :=
  service_missing_token_throws ⟨[], 600000, 50⟩ 3600000 100 3600000 100
    3600000 100 3600000 100 0 svTrivial riGitlab .gitlab rfl rfl

/-- C9: when the issue cache holds a fresh entry for the
`platform-owner-repo` key, the service's `fetchIssues` returns that cached
list immediately, touching only the issue cache (LRU re-insertion) — for
every configuration, so no platform or token resolution happens and no
missing-token error can arise even when no token is configured anywhere. -/
theorem service_cache_hit_returns_cached (st : ServiceState) (te : TokenEnv)
    (sv : Servers) (now : Nat) (ri : RepoInfo) (l : List Issue)
    (hhit : (st.issueCache.get now (serviceCacheKey ri)).1 = some l) :
    CommitHelperService.fetchIssues st te sv now ri =
      (.ok l,
       { st with issueCache := (st.issueCache.get now (serviceCacheKey ri)).2 }) := by
  unfold CommitHelperService.fetchIssues
  rcases hE : st.issueCache.get now (serviceCacheKey ri) with ⟨r, cc⟩
  rw [hE] at hhit
  simp only at hhit
  subst hhit
  simp only [hE]

/-- A single cached issue list for the `gitlab-acme-widget` key. -/
def cachedIssueState : ServiceState :=
  freshTokenCaches
    ⟨[("gitlab-acme-widget", ⟨[⟨1, "t", 1, "opened", "u"⟩], 0⟩)], 600000, 50⟩
    3600000 100 3600000 100 3600000 100 3600000 100

theorem service_cache_hit_returns_cached_witness :
    CommitHelperService.fetchIssues cachedIssueState emptyTokenEnv svTrivial
        1 riGitlab =
      (.ok [⟨1, "t", 1, "opened", "u"⟩],
       { cachedIssueState with
         issueCache :=
           (cachedIssueState.issueCache.get 1 (serviceCacheKey riGitlab)).2 }) :=
  service_cache_hit_returns_cached cachedIssueState emptyTokenEnv svTrivial 1
    riGitlab [⟨1, "t", 1, "opened", "u"⟩] (by decide)

/-- Maximal prefix of characters satisfying `p`, with the remainder: the
deterministic behaviour of a greedy character-class repetition `[...]+`,
which cannot backtrack past a character its class excludes. -/
def takeRun (p : Char → Bool) : List Char → List Char × List Char
  | [] => ([], [])
  | c :: rest =>
    if p c then
      let r := takeRun p rest
      (c :: r.1, r.2)
    else ([], c :: rest)

/-- Match `[class]+sep` where the class excludes the literal separator `sep`:
the nonempty capture and the remainder after the separator. -/
def captureUntil (p : Char → Bool) (sep : Char) (cs : List Char) :
    Option (List Char × List Char) :=
  let r := takeRun p cs
  match r.2 with
  | c :: rest => if r.1 ≠ [] ∧ c = sep then some (r.1, rest) else none
  | [] => none

/-- Match the trailing `(.+?)(?:\.git)?$` common to all four URL patterns:
the lazy group takes the shortest nonempty prefix whose remainder is `.git`
or empty, i.e. a final `.git` suffix is stripped whenever a nonempty base
name precedes it. -/
def repoCapture (cs : List Char) : Option (List Char) :=
  if cs = [] then none
  else if 5 ≤ cs.length ∧ cs.drop (cs.length - 4) = ".git".toList then
    some (cs.take (cs.length - 4))
  else some cs

/-- Leading `https?:\/\/` of the HTTPS pattern: the scheme (with `://`) and
the remainder. -/
def schemeSplit (cs : List Char) : Option (List Char × List Char) :=
  if "https://".toList.isPrefixOf cs then some ("https://".toList, cs.drop 8)
  else if "http://".toList.isPrefixOf cs then some ("http://".toList, cs.drop 7)
  else none

/-- JS `String.includes`: substring test. -/
def hasSubstr (needle : List Char) : List Char → Bool
  | [] => needle.isPrefixOf []
  | c :: t => needle.isPrefixOf (c :: t) || hasSubstr needle t

/-- `GitUrlParser.isKnownPlatform` (src/git/parser.ts lines 159-161): the
hostname contains one of the three known public forge domains. -/
def isKnownPlatform (hostname : String) : Bool :=
  hasSubstr "github.com".toList hostname.toList ||
  hasSubstr "gitlab.com".toList hostname.toList ||
  hasSubstr "gitee.com".toList hostname.toList

/-- The `^172\.(1[6-9]|2[0-9]|3[0-1])\.` test of `isInternalAddress`. -/
def is172Internal : List Char → Bool
  | '1' :: '7' :: '2' :: '.' :: d1 :: d2 :: '.' :: _ =>
    (d1 == '1' && ('6' ≤ d2 && d2 ≤ '9')) ||
    (d1 == '2' && d2.isDigit) ||
    (d1 == '3' && (d2 == '0' || d2 == '1'))
  | _ => false

/-- `GitUrlParser.isInternalAddress` (src/git/parser.ts lines 166-173):
textual prefix tests `^192\.168\.`, `^10\.`, the 172.16-31 test, or the
hostname `localhost`. -/
def isInternalAddress (hostname : String) : Bool :=
  "192.168.".toList.isPrefixOf hostname.toList ||
  "10.".toList.isPrefixOf hostname.toList ||
  is172Internal hostname.toList ||
  hostname == "localhost"

/-- `GitUrlParser.createRepoInfo` (src/git/parser.ts lines 178-220). -/
def createRepoInfo (hostname owner repo hostUrl : String) : RepoInfo :=
  if hasSubstr "github.com".toList hostname.toList then
    ⟨"github", owner, repo, "https://api.github.com", some hostUrl⟩
  else if hasSubstr "gitlab.com".toList hostname.toList then
    ⟨"gitlab", owner, repo, "https://gitlab.com/api/v4", some hostUrl⟩
  else if hasSubstr "gitee.com".toList hostname.toList then
    ⟨"gitee", owner, repo, "https://gitee.com/api/v5", some hostUrl⟩
  else
    ⟨"local-gitlab", owner, repo, hostUrl ++ "/api/v4", some hostUrl⟩

/-- `GitUrlParser.parseHttps` (src/git/parser.ts lines 61-69) via the regex
`^(https?:\/\/([^\/]+))\/([^\/]+)\/(.+?)(?:\.git)?$`. -/
def parseHttps (url : String) : Option RepoInfo :=
  match schemeSplit url.toList with
  | none => none
  | some (scheme, rest) =>
    match captureUntil (fun c => !(c == '/')) '/' rest with
    | none => none
    | some (hostname, rest1) =>
      match captureUntil (fun c => !(c == '/')) '/' rest1 with
      | none => none
      | some (owner, rest2) =>
        match repoCapture rest2 with
        | none => none
        | some repo =>
          some (createRepoInfo ⟨hostname⟩ ⟨owner⟩ ⟨repo⟩
            ⟨scheme ++ hostname⟩)

/-- `GitUrlParser.parseSshWithPort` (src/git/parser.ts lines 74-98) via the
regex `^ssh:\/\/git@([^:\/]+):(\d+)\/([^\/]+)\/(.+?)(?:\.git)?$`: known
hosts go through `createRepoInfo`, otherwise the self-hosted branch chooses
the scheme by `isInternalAddress` and drops the web port exactly when the
port string is `2222`. -/
def parseSshWithPort (url : String) : Option RepoInfo :=
  if "ssh://git@".toList.isPrefixOf url.toList then
    match captureUntil (fun c => !(c == ':' || c == '/')) ':'
        (url.toList.drop 10) with
    | none => none
    | some (hostname, rest1) =>
      match captureUntil (fun c => c.isDigit) '/' rest1 with
      | none => none
      | some (port, rest2) =>
        match captureUntil (fun c => !(c == '/')) '/' rest2 with
        | none => none
        | some (owner, rest3) =>
          match repoCapture rest3 with
          | none => none
          | some repo =>
            if isKnownPlatform ⟨hostname⟩ then
              some (createRepoInfo ⟨hostname⟩ ⟨owner⟩ ⟨repo⟩
                ("https://" ++ (⟨hostname⟩ : String)))
            else
              let protocol := if isInternalAddress ⟨hostname⟩ then "http"
                              else "https"
              let webPort := if (⟨port⟩ : String) == "2222" then ""
                             else ":" ++ (⟨port⟩ : String)
              let hostUrl :=
                protocol ++ "://" ++ (⟨hostname⟩ : String) ++ webPort
              some ⟨"local-gitlab", ⟨owner⟩, ⟨repo⟩, hostUrl ++ "/api/v4",
                some hostUrl⟩
  else none

/-- `GitUrlParser.parseSshStandard` (src/git/parser.ts lines 103-126) via
the regex `^git@([^:]+):([^\/]+)\/(.+?)(?:\.git)?$`. -/
def parseSshStandard (url : String) : Option RepoInfo :=
  if "git@".toList.isPrefixOf url.toList then
    match captureUntil (fun c => !(c == ':')) ':' (url.toList.drop 4) with
    | none => none
    | some (hostname, rest1) =>
      match captureUntil (fun c => !(c == '/')) '/' rest1 with
      | none => none
      | some (owner, rest2) =>
        match repoCapture rest2 with
        | none => none
        | some repo =>
          if isKnownPlatform ⟨hostname⟩ then
            some (createRepoInfo ⟨hostname⟩ ⟨owner⟩ ⟨repo⟩
              ("https://" ++ (⟨hostname⟩ : String)))
          else
            let protocol := if isInternalAddress ⟨hostname⟩ then "http"
                            else "https"
            let hostUrl := protocol ++ "://" ++ (⟨hostname⟩ : String)
            some ⟨"local-gitlab", ⟨owner⟩, ⟨repo⟩, hostUrl ++ "/api/v4",
              some hostUrl⟩
  else none

/-- `GitUrlParser.parseSshNoPort` (src/git/parser.ts lines 131-154) via the
regex `^ssh:\/\/git@([^\/]+)\/([^\/]+)\/(.+?)(?:\.git)?$`. -/
def parseSshNoPort (url : String) : Option RepoInfo :=
  if "ssh://git@".toList.isPrefixOf url.toList then
    match captureUntil (fun c => !(c == '/')) '/' (url.toList.drop 10) with
    | none => none
    | some (hostname, rest1) =>
      match captureUntil (fun c => !(c == '/')) '/' rest1 with
      | none => none
      | some (owner, rest2) =>
        match repoCapture rest2 with
        | none => none
        | some repo =>
          if isKnownPlatform ⟨hostname⟩ then
            some (createRepoInfo ⟨hostname⟩ ⟨owner⟩ ⟨repo⟩
              ("https://" ++ (⟨hostname⟩ : String)))
          else
            let protocol := if isInternalAddress ⟨hostname⟩ then "http"
                            else "https"
            let hostUrl := protocol ++ "://" ++ (⟨hostname⟩ : String)
            some ⟨"local-gitlab", ⟨owner⟩, ⟨repo⟩, hostUrl ++ "/api/v4",
              some hostUrl⟩
  else none

/-- `GitUrlParser.parse` (src/git/parser.ts lines 38-56): the four syntaxes
tried in fixed order, first match wins. -/
def GitUrlParser.parse (url : String) : Option RepoInfo :=
  match parseHttps url with
  | some ri => some ri
  | none =>
    match parseSshWithPort url with
    | some ri => some ri
    | none =>
      match parseSshStandard url with
      | some ri => some ri
      | none => parseSshNoPort url

/-- C5: the parser, trying the four syntaxes in fixed order with first match
winning, maps the spec's four literal examples exactly as stated (field
names per src/core/types.ts: `platform` = forgeKind, `baseUrl` =
apiBaseUrl). -/
theorem parser_literal_examples :
    GitUrlParser.parse "https://github.com/acme/widget.git" =
      some ⟨"github", "acme", "widget", "https://api.github.com",
        some "https://github.com"⟩ ∧
    GitUrlParser.parse "git@gitlab.com:acme/widget.git" =
      some ⟨"gitlab", "acme", "widget", "https://gitlab.com/api/v4",
        some "https://gitlab.com"⟩ ∧
    GitUrlParser.parse "ssh://git@192.168.1.50:2222/acme/widget.git" =
      some ⟨"local-gitlab", "acme", "widget",
        "http://192.168.1.50/api/v4", some "http://192.168.1.50"⟩ ∧
    GitUrlParser.parse "ssh://git@git.example.com/acme/widget.git" =
      some ⟨"local-gitlab", "acme", "widget",
        "https://git.example.com/api/v4", some "https://git.example.com"⟩ := by
  refine ⟨rfl, rfl, rfl, rfl⟩

/-- Decimal digit value of a character (arms listed high to low). -/
def digitVal : Char → Option Nat
  | '9' => some 9
  | '8' => some 8
  | '7' => some 7
  | '6' => some 6
  | '5' => some 5
  | '4' => some 4
  | '3' => some 3
  | '2' => some 2
  | '1' => some 1
  | '0' => some 0
  | _ => none

/-- Left fold of decimal digits onto an accumulator; `none` on a non-digit. -/
def decimalValAux : List Char → Nat → Option Nat
  | [], acc => some acc
  | c :: rest, acc =>
    match digitVal c with
    | some d => decimalValAux rest (acc * 10 + d)
    | none => none

/-- Value of a canonical decimal numeral: nonempty, digits only, and no
leading zero unless the numeral is `0` itself. -/
def octetVal : List Char → Option Nat
  | [] => none
  | c :: rest =>
    match digitVal c with
    | some d =>
      if d == 0 && !rest.isEmpty then none
      else decimalValAux rest d
    | none => none

/-- Split on `.` (like `String.splitOn "."`): every `.` separates fields,
so `n` dots yield `n + 1` (possibly empty) fields. -/
def splitOnDot : List Char → List (List Char)
  | [] => [[]]
  | c :: rest =>
    let r := splitOnDot rest
    if c == '.' then [] :: r
    else
      match r with
      | p :: ps => (c :: p) :: ps
      | [] => [[c]]

/-- Join with `.`: the inverse of `splitOnDot`. -/
def joinDots : List (List Char) → List Char
  | [] => []
  | [p] => p
  | p :: ps => p ++ '.' :: joinDots ps

/-- Spec-side reading of C6's host heuristic ("the hostname is `localhost`
or falls in a private address range (10.0.0.0/8, 172.16.0.0/12,
192.168.0.0/16)"): the hostname is `localhost`, or it is an IPv4 dotted-quad
address whose octets are canonical decimal numerals 0..255 and which lies in
one of the three private ranges. -/
def specPrivateOrLocalhost (hostname : String) : Bool :=
  hostname == "localhost" ||
  (match splitOnDot hostname.toList with
   | [p1, p2, p3, p4] =>
     match octetVal p1, octetVal p2, octetVal p3, octetVal p4 with
     | some a, some b, some c, some d =>
       decide (a ≤ 255) && decide (b ≤ 255) && decide (c ≤ 255) &&
       decide (d ≤ 255) &&
       (a == 10 || (a == 172 && decide (16 ≤ b) && decide (b ≤ 31)) ||
        (a == 192 && b == 168))
     | _, _, _, _ => false
   | _ => false)

/-- C6 counterexample: the claimed "http iff localhost-or-private-range"
equivalence fails on two concrete URLs.  The HTTPS syntax's self-hosted
fallback keeps the URL's own scheme, so `http://git.example.com/...` gets an
`http` hostUrl for a public hostname; and the SSH heuristic is a textual
prefix test, so `ssh://git@10.example.com/...` gets `http` although
`10.example.com` is neither `localhost` nor an address in a private range. -/
theorem parser_scheme_heuristic_cex :
    GitUrlParser.parse "http://git.example.com/acme/widget.git" =
      some ⟨"local-gitlab", "acme", "widget",
        "http://git.example.com/api/v4", some "http://git.example.com"⟩ ∧
    specPrivateOrLocalhost "git.example.com" = false ∧
    GitUrlParser.parse "ssh://git@10.example.com/acme/widget.git" =
      some ⟨"local-gitlab", "acme", "widget",
        "http://10.example.com/api/v4", some "http://10.example.com"⟩ ∧
    specPrivateOrLocalhost "10.example.com" = false := by
  refine ⟨rfl, by decide, rfl, by decide⟩

theorem takeRun_append (p : Char → Bool) (l : List Char) (c : Char)
    (r : List Char) (hl : ∀ x ∈ l, p x = true) (hc : p c = false) :
    takeRun p (l ++ c :: r) = (l, c :: r) := by
  induction l with
  | nil => simp [takeRun, hc]
  | cons a t ih =>
    have ha : p a = true := hl a (by simp)
    have ht : ∀ x ∈ t, p x = true := fun x hx => hl x (by simp [hx])
    simp [takeRun, ha, ih ht]

theorem captureUntil_append (p : Char → Bool) (sep : Char) (l r : List Char)
    (hne : l ≠ []) (hl : ∀ x ∈ l, p x = true) (hsep : p sep = false) :
    captureUntil p sep (l ++ sep :: r) = some (l, r) := by
  simp [captureUntil, takeRun_append p l sep r hl hsep, hne]

theorem isPrefixOf_append_self {α : Type} [BEq α] [LawfulBEq α]
    (l r : List α) : l.isPrefixOf (l ++ r) = true := by
  induction l with
  | nil => simp [List.isPrefixOf]
  | cons a t ih => simp [List.isPrefixOf, ih]

theorem digitVal_char (c : Char) (n : Nat) (h : digitVal c = some n) :
    c = Nat.digitChar n ∧ n ≤ 9 := by
  unfold digitVal at h
  split at h
  all_goals first
    | (injection h with h2; subst h2; exact ⟨by decide, by decide⟩)
    | exact Option.noConfusion h

theorem decimalValAux_ge (l : List Char) (acc n : Nat)
    (h : decimalValAux l acc = some n) : acc * 10 ^ l.length ≤ n := by
  induction l generalizing acc with
  | nil =>
    simp only [decimalValAux, Option.some.injEq] at h
    simp [h]
  | cons c t ih =>
    unfold decimalValAux at h
    cases hd : digitVal c with
    | none => rw [hd] at h; cases h
    | some d =>
      rw [hd] at h
      have h2 := ih (acc * 10 + d) h
      have h3 : acc * 10 ^ (c :: t).length ≤ (acc * 10 + d) * 10 ^ t.length := by
        simp only [List.length_cons, pow_succ]
        calc acc * (10 ^ t.length * 10) = acc * 10 * 10 ^ t.length := by ring
          _ ≤ (acc * 10 + d) * 10 ^ t.length :=
            Nat.mul_le_mul_right _ (Nat.le_add_right _ _)
      exact le_trans h3 h2

theorem octetVal_digits (p : List Char) (v : Nat) (h : octetVal p = some v) :
    (∃ d1, p = [Nat.digitChar d1] ∧ d1 ≤ 9 ∧ v = d1) ∨
    (∃ d1 d2, p = [Nat.digitChar d1, Nat.digitChar d2] ∧ 1 ≤ d1 ∧ d1 ≤ 9 ∧
      d2 ≤ 9 ∧ v = 10 * d1 + d2) ∨
    (∃ d1 d2 d3, p = [Nat.digitChar d1, Nat.digitChar d2, Nat.digitChar d3] ∧
      1 ≤ d1 ∧ d1 ≤ 9 ∧ d2 ≤ 9 ∧ d3 ≤ 9 ∧ v = 100 * d1 + 10 * d2 + d3) ∨
    256 ≤ v := by
  match p with
  | [] => simp [octetVal] at h
  | [c1] =>
    cases hd1 : digitVal c1 with
    | none => simp only [octetVal, hd1] at h; exact Option.noConfusion h
    | some d1 =>
      simp only [octetVal, hd1] at h
      rw [if_neg (by simp)] at h
      simp only [decimalValAux, Option.some.injEq] at h
      obtain ⟨hc1, hle1⟩ := digitVal_char c1 d1 hd1
      exact Or.inl ⟨d1, by simp [hc1], hle1, h.symm⟩
  | [c1, c2] =>
    cases hd1 : digitVal c1 with
    | none => simp only [octetVal, hd1] at h; exact Option.noConfusion h
    | some d1 =>
      simp only [octetVal, hd1] at h
      by_cases hz : d1 == 0
      · rw [if_pos (by simp [hz])] at h; cases h
      · rw [if_neg (by simp_all)] at h
        unfold decimalValAux at h
        cases hd2 : digitVal c2 with
        | none => rw [hd2] at h; cases h
        | some d2 =>
          rw [hd2] at h
          simp only [decimalValAux, Option.some.injEq] at h
          obtain ⟨hc1, hle1⟩ := digitVal_char c1 d1 hd1
          obtain ⟨hc2, hle2⟩ := digitVal_char c2 d2 hd2
          have hd1pos : 1 ≤ d1 := by
            simp only [beq_iff_eq] at hz; omega
          exact Or.inr (Or.inl ⟨d1, d2, by simp [hc1, hc2], hd1pos, hle1,
            hle2, by omega⟩)
  | [c1, c2, c3] =>
    cases hd1 : digitVal c1 with
    | none => simp only [octetVal, hd1] at h; exact Option.noConfusion h
    | some d1 =>
      simp only [octetVal, hd1] at h
      by_cases hz : d1 == 0
      · rw [if_pos (by simp [hz])] at h; cases h
      · rw [if_neg (by simp_all)] at h
        unfold decimalValAux at h
        cases hd2 : digitVal c2 with
        | none => rw [hd2] at h; cases h
        | some d2 =>
          rw [hd2] at h
          unfold decimalValAux at h
          cases hd3 : digitVal c3 with
          | none => rw [hd3] at h; cases h
          | some d3 =>
            rw [hd3] at h
            simp only [decimalValAux, Option.some.injEq] at h
            obtain ⟨hc1, hle1⟩ := digitVal_char c1 d1 hd1
            obtain ⟨hc2, hle2⟩ := digitVal_char c2 d2 hd2
            obtain ⟨hc3, hle3⟩ := digitVal_char c3 d3 hd3
            have hd1pos : 1 ≤ d1 := by
              simp only [beq_iff_eq] at hz; omega
            exact Or.inr (Or.inr (Or.inl ⟨d1, d2, d3,
              by simp [hc1, hc2, hc3], hd1pos, hle1, hle2, hle3, by omega⟩))
  | c1 :: c2 :: c3 :: c4 :: t =>
    cases hd1 : digitVal c1 with
    | none => simp only [octetVal, hd1] at h; exact Option.noConfusion h
    | some d1 =>
      simp only [octetVal, hd1] at h
      by_cases hz : d1 == 0
      · rw [if_pos (by simp [hz])] at h; cases h
      · rw [if_neg (by simp_all)] at h
        unfold decimalValAux at h
        cases hd2 : digitVal c2 with
        | none => rw [hd2] at h; cases h
        | some d2 =>
          rw [hd2] at h
          have hge := decimalValAux_ge _ _ _ h
          have hd1pos : 1 ≤ d1 := by
            simp only [beq_iff_eq] at hz; omega
          have hle2 := (digitVal_char c2 d2 hd2).2
          refine Or.inr (Or.inr (Or.inr ?_))
          have hlen : (c3 :: c4 :: t).length = t.length + 2 := by simp
          rw [hlen] at hge
          have h10 : 10 ≤ (d1 * 10 + d2) := by omega
          have hpow : 100 ≤ 10 ^ (t.length + 2) := by
            calc (100 : Nat) = 10 ^ 2 := by norm_num
              _ ≤ 10 ^ (t.length + 2) :=
                Nat.pow_le_pow_right (by norm_num) (by omega)
          have hmul := Nat.mul_le_mul h10 hpow
          omega

theorem octetVal_eq_10 (p : List Char) (h : octetVal p = some 10) :
    p = ['1', '0'] := by
  rcases octetVal_digits p 10 h with ⟨d1, hp, hle, hv⟩ |
    ⟨d1, d2, hp, h1, h9a, h9b, hv⟩ |
    ⟨d1, d2, d3, hp, h1, h9a, h9b, h9c, hv⟩ | h256
  · omega
  · have hd1 : d1 = 1 := by omega
    have hd2 : d2 = 0 := by omega
    subst hd1; subst hd2
    exact hp.trans (by decide)
  · omega
  · omega

theorem octetVal_eq_172 (p : List Char) (h : octetVal p = some 172) :
    p = ['1', '7', '2'] := by
  rcases octetVal_digits p 172 h with ⟨d1, hp, hle, hv⟩ |
    ⟨d1, d2, hp, h1, h9a, h9b, hv⟩ |
    ⟨d1, d2, d3, hp, h1, h9a, h9b, h9c, hv⟩ | h256
  · omega
  · omega
  · have hd1 : d1 = 1 := by omega
    have hd2 : d2 = 7 := by omega
    have hd3 : d3 = 2 := by omega
    subst hd1; subst hd2; subst hd3
    exact hp.trans (by decide)
  · omega

theorem octetVal_eq_192 (p : List Char) (h : octetVal p = some 192) :
    p = ['1', '9', '2'] := by
  rcases octetVal_digits p 192 h with ⟨d1, hp, hle, hv⟩ |
    ⟨d1, d2, hp, h1, h9a, h9b, hv⟩ |
    ⟨d1, d2, d3, hp, h1, h9a, h9b, h9c, hv⟩ | h256
  · omega
  · omega
  · have hd1 : d1 = 1 := by omega
    have hd2 : d2 = 9 := by omega
    have hd3 : d3 = 2 := by omega
    subst hd1; subst hd2; subst hd3
    exact hp.trans (by decide)
  · omega

theorem octetVal_eq_168 (p : List Char) (h : octetVal p = some 168) :
    p = ['1', '6', '8'] := by
  rcases octetVal_digits p 168 h with ⟨d1, hp, hle, hv⟩ |
    ⟨d1, d2, hp, h1, h9a, h9b, hv⟩ |
    ⟨d1, d2, d3, hp, h1, h9a, h9b, h9c, hv⟩ | h256
  · omega
  · omega
  · have hd1 : d1 = 1 := by omega
    have hd2 : d2 = 6 := by omega
    have hd3 : d3 = 8 := by omega
    subst hd1; subst hd2; subst hd3
    exact hp.trans (by decide)
  · omega

theorem octetVal_16_31 (p : List Char) (b : Nat) (h : octetVal p = some b)
    (h16 : 16 ≤ b) (h31 : b ≤ 31) :
    ∃ e1 e2, p = [e1, e2] ∧
      ((e1 == '1' && (decide ('6' ≤ e2) && decide (e2 ≤ '9'))) ||
       (e1 == '2' && e2.isDigit) ||
       (e1 == '3' && (e2 == '0' || e2 == '1'))) = true := by
  rcases octetVal_digits p b h with ⟨d1, hp, hle, hv⟩ |
    ⟨d1, d2, hp, h1, h9a, h9b, hv⟩ |
    ⟨d1, d2, d3, hp, h1, h9a, h9b, h9c, hv⟩ | h256
  · omega
  · subst hv
    have hd1 : d1 = 1 ∨ d1 = 2 ∨ d1 = 3 := by omega
    refine ⟨Nat.digitChar d1, Nat.digitChar d2, hp, ?_⟩
    rcases hd1 with rfl | rfl | rfl
    · have h6 : 6 ≤ d2 := by omega
      interval_cases d2 <;> decide
    · interval_cases d2 <;> decide
    · have hb1 : d2 ≤ 1 := by omega
      interval_cases d2 <;> decide
  · omega
  · omega



theorem splitOnDot_ne_nil (l : List Char) : splitOnDot l ≠ [] := by
  cases l with
  | nil => simp [splitOnDot]
  | cons c t =>
    simp only [splitOnDot]
    by_cases hc : c == '.'
    · simp [hc]
    · simp only [hc, if_false]
      cases hr : splitOnDot t with
      | nil => simp
      | cons p ps => simp

theorem splitOnDot_join (l : List Char) : joinDots (splitOnDot l) = l := by
  induction l with
  | nil => rfl
  | cons c t ih =>
    simp only [splitOnDot]
    by_cases hc : c == '.'
    · simp only [hc, if_true]
      have hne := splitOnDot_ne_nil t
      cases hr : splitOnDot t with
      | nil => exact absurd hr hne
      | cons p ps =>
        rw [hr] at ih
        have hcdot : c = '.' := by simpa using hc
        subst hcdot
        simp only [joinDots]
        rw [ih]
        rfl
    · simp only [hc, if_false]
      cases hr : splitOnDot t with
      | nil => exact absurd hr (splitOnDot_ne_nil t)
      | cons p ps =>
        rw [hr] at ih
        cases ps with
        | nil =>
          simp only [joinDots] at ih ⊢
          rw [ih]
        | cons q qs =>
          simp only [joinDots] at ih ⊢
          rw [List.cons_append, ih]




theorem specPrivate_implies_internal (h : String)
    (hs : specPrivateOrLocalhost h = true) : isInternalAddress h = true := by
  unfold specPrivateOrLocalhost at hs
  rw [Bool.or_eq_true] at hs
  rcases hs with hl | hm
  · have hloc : h = "localhost" := by simpa using hl
    subst hloc
    decide
  · split at hm
    case _ p1 p2 p3 p4 heq =>
      split at hm
      case _ a b c d ha hb hc hd =>
        simp only [Bool.and_eq_true, Bool.or_eq_true, decide_eq_true_eq,
          beq_iff_eq] at hm
        obtain ⟨⟨⟨⟨ha255, hb255⟩, hc255⟩, hd255⟩, hdisj⟩ := hm
        have hj := splitOnDot_join h.toList
        rw [heq] at hj
        simp only [joinDots] at hj
        rcases hdisj with (ha10 | ⟨⟨ha172, hb16⟩, hb31⟩) | ⟨ha192, hb168⟩
        · subst ha10
          have hp1 := octetVal_eq_10 p1 ha
          subst hp1
          unfold isInternalAddress
          rw [← hj]
          simp only [List.cons_append, List.nil_append]
          rw [show "10.".toList = ['1', '0', '.'] from by decide]
          have hpre : ∀ r, List.isPrefixOf ['1', '0', '.']
              ('1' :: '0' :: '.' :: r) = true := by
            intro r; simp [List.isPrefixOf]
          simp [hpre]
        · subst ha172
          have hp1 := octetVal_eq_172 p1 ha
          obtain ⟨e1, e2, hp2, hclass⟩ := octetVal_16_31 p2 b hb hb16 hb31
          subst hp1
          subst hp2
          unfold isInternalAddress
          rw [← hj]
          simp only [List.cons_append, List.nil_append]
          have h172 : is172Internal
              ('1' :: '7' :: '2' :: '.' :: e1 :: e2 :: '.' ::
                (p3 ++ '.' :: p4)) = true := by
            simp only [is172Internal]
            exact hclass
          simp [h172]
        · subst ha192
          subst hb168
          have hp1 := octetVal_eq_192 p1 ha
          have hp2 := octetVal_eq_168 p2 hb
          subst hp1
          subst hp2
          unfold isInternalAddress
          rw [← hj]
          simp only [List.cons_append, List.nil_append]
          rw [show "192.168.".toList =
            ['1', '9', '2', '.', '1', '6', '8', '.'] from by decide]
          have hpre : ∀ r, List.isPrefixOf
              ['1', '9', '2', '.', '1', '6', '8', '.']
              ('1' :: '9' :: '2' :: '.' :: '1' :: '6' :: '8' :: '.' :: r) =
              true := by
            intro r; simp [List.isPrefixOf]
          simp [hpre]
      all_goals simp at hm
    all_goals simp at hm

theorem drop10_append (l : List Char) :
    (['s', 's', 'h', ':', '/', '/', 'g', 'i', 't', '@'] ++ l).drop 10 = l := by
  simp

/-- C6 amended, part for the SSH-with-port syntax: for every well-formed
component split with a non-known-forge hostname, the parser classifies the
URL as `local-gitlab` and synthesizes the web hostUrl with scheme `http`
exactly when `isInternalAddress` holds of the hostname (a textual test for
`localhost` or the prefixes `10.` / `192.168.` / `172.16.`-`172.31.`), and
with the port omitted exactly when the port string is `2222`. -/
theorem parse_sshWithPort_selfHosted (host port owner repo out : List Char)
    (hh1 : host ≠ []) (hh2 : ∀ c ∈ host, (!(c == ':' || c == '/')) = true)
    (hp1 : port ≠ []) (hp2 : ∀ c ∈ port, c.isDigit = true)
    (ho1 : owner ≠ []) (ho2 : ∀ c ∈ owner, (!(c == '/')) = true)
    (hrepo : repoCapture repo = some out)
    (hknown : isKnownPlatform ⟨host⟩ = false) :
    GitUrlParser.parse
      ⟨"ssh://git@".toList ++
        (host ++ ':' :: (port ++ '/' :: (owner ++ '/' :: repo)))⟩ =
      some ⟨"local-gitlab", ⟨owner⟩, ⟨out⟩,
        ((if isInternalAddress ⟨host⟩ then "http" else "https") ++ "://" ++
          (⟨host⟩ : String) ++
          (if (⟨port⟩ : String) == "2222" then ""
           else ":" ++ (⟨port⟩ : String))) ++ "/api/v4",
        some ((if isInternalAddress ⟨host⟩ then "http" else "https") ++
          "://" ++ (⟨host⟩ : String) ++
          (if (⟨port⟩ : String) == "2222" then ""
           else ":" ++ (⟨port⟩ : String)))⟩ := by
  have hL : "ssh://git@".toList =
      ['s', 's', 'h', ':', '/', '/', 'g', 'i', 't', '@'] := by decide
  rw [hL]
  set R : List Char := host ++ ':' :: (port ++ '/' :: (owner ++ '/' :: repo))
    with hR
  have htl : (⟨['s', 's', 'h', ':', '/', '/', 'g', 'i', 't', '@'] ++ R⟩ :
      String).toList = ['s', 's', 'h', ':', '/', '/', 'g', 'i', 't', '@'] ++
      R := rfl
  have hhttps : parseHttps
      ⟨['s', 's', 'h', ':', '/', '/', 'g', 'i', 't', '@'] ++ R⟩ = none := by
    unfold parseHttps schemeSplit
    rw [htl]
    rw [show "https://".toList = ['h', 't', 't', 'p', 's', ':', '/', '/']
      from by decide]
    rw [show "http://".toList = ['h', 't', 't', 'p', ':', '/', '/']
      from by decide]
    simp [List.isPrefixOf]
  have hpre : List.isPrefixOf
      ['s', 's', 'h', ':', '/', '/', 'g', 'i', 't', '@']
      (['s', 's', 'h', ':', '/', '/', 'g', 'i', 't', '@'] ++ R) = true :=
    isPrefixOf_append_self _ _
  have hc1 : captureUntil (fun c => !(c == ':' || c == '/')) ':'
      (host ++ ':' :: (port ++ '/' :: (owner ++ '/' :: repo))) =
      some (host, port ++ '/' :: (owner ++ '/' :: repo)) :=
    captureUntil_append _ _ _ _ hh1 hh2 (by decide)
  have hc2 : captureUntil (fun c => c.isDigit) '/'
      (port ++ '/' :: (owner ++ '/' :: repo)) =
      some (port, owner ++ '/' :: repo) :=
    captureUntil_append _ _ _ _ hp1 hp2 (by decide)
  have hc3 : captureUntil (fun c => !(c == '/')) '/' (owner ++ '/' :: repo) =
      some (owner, repo) :=
    captureUntil_append _ _ _ _ ho1 ho2 (by decide)
  unfold GitUrlParser.parse
  rw [hhttps]
  unfold parseSshWithPort
  rw [htl]
  rw [hL, if_pos hpre]
  rw [drop10_append, hR]
  simp only [hc1, hc2, hc3, hrepo, hknown]
  simp [hknown]

theorem captureUntil_append_ne (p : Char → Bool) (sep : Char)
    (l : List Char) (c : Char) (r : List Char)
    (hl : ∀ x ∈ l, p x = true) (hc : p c = false) (hne : c ≠ sep) :
    captureUntil p sep (l ++ c :: r) = none := by
  simp [captureUntil, takeRun_append p l c r hl hc, hne]

/-- C6 amended, part for the SSH-without-port syntax (hostname restricted to
characters legal in both SSH hostname classes, so that the with-port pattern
cannot fire first): self-hosted classification with the scheme chosen by
`isInternalAddress`. -/
theorem parse_sshNoPort_selfHosted (host owner repo out : List Char)
    (hh1 : host ≠ []) (hh2 : ∀ c ∈ host, (!(c == ':' || c == '/')) = true)
    (ho1 : owner ≠ []) (ho2 : ∀ c ∈ owner, (!(c == '/')) = true)
    (hrepo : repoCapture repo = some out)
    (hknown : isKnownPlatform ⟨host⟩ = false) :
    GitUrlParser.parse
      ⟨"ssh://git@".toList ++ (host ++ '/' :: (owner ++ '/' :: repo))⟩ =
      some ⟨"local-gitlab", ⟨owner⟩, ⟨out⟩,
        ((if isInternalAddress ⟨host⟩ then "http" else "https") ++ "://" ++
          (⟨host⟩ : String)) ++ "/api/v4",
        some ((if isInternalAddress ⟨host⟩ then "http" else "https") ++
          "://" ++ (⟨host⟩ : String))⟩ := by
  have hL : "ssh://git@".toList =
      ['s', 's', 'h', ':', '/', '/', 'g', 'i', 't', '@'] := by decide
  rw [hL]
  set R : List Char := host ++ '/' :: (owner ++ '/' :: repo) with hR
  have htl : (⟨['s', 's', 'h', ':', '/', '/', 'g', 'i', 't', '@'] ++ R⟩ :
      String).toList = ['s', 's', 'h', ':', '/', '/', 'g', 'i', 't', '@'] ++
      R := rfl
  have hhttps : parseHttps
      ⟨['s', 's', 'h', ':', '/', '/', 'g', 'i', 't', '@'] ++ R⟩ = none := by
    unfold parseHttps schemeSplit
    rw [htl]
    rw [show "https://".toList = ['h', 't', 't', 'p', 's', ':', '/', '/']
      from by decide]
    rw [show "http://".toList = ['h', 't', 't', 'p', ':', '/', '/']
      from by decide]
    simp [List.isPrefixOf]
  have hpre : List.isPrefixOf
      ['s', 's', 'h', ':', '/', '/', 'g', 'i', 't', '@']
      (['s', 's', 'h', ':', '/', '/', 'g', 'i', 't', '@'] ++ R) = true :=
    isPrefixOf_append_self _ _
  have hwithport : captureUntil (fun c => !(c == ':' || c == '/')) ':'
      (host ++ '/' :: (owner ++ '/' :: repo)) = none :=
    captureUntil_append_ne _ _ _ _ _ hh2 (by decide) (by decide)
  have hh2' : ∀ c ∈ host, (!(c == '/')) = true := by
    intro c hc
    have := hh2 c hc
    simp only [Bool.not_eq_true', Bool.or_eq_false_iff] at this
    simp [this.2]
  have hc1 : captureUntil (fun c => !(c == '/')) '/'
      (host ++ '/' :: (owner ++ '/' :: repo)) =
      some (host, owner ++ '/' :: repo) :=
    captureUntil_append _ _ _ _ hh1 hh2' (by decide)
  have hc2 : captureUntil (fun c => !(c == '/')) '/' (owner ++ '/' :: repo) =
      some (owner, repo) :=
    captureUntil_append _ _ _ _ ho1 ho2 (by decide)
  have hstd : List.isPrefixOf "git@".toList
      (['s', 's', 'h', ':', '/', '/', 'g', 'i', 't', '@'] ++ R) = false := by
    rw [show "git@".toList = ['g', 'i', 't', '@'] from by decide]
    simp [List.isPrefixOf]
  unfold GitUrlParser.parse
  rw [hhttps]
  unfold parseSshWithPort
  rw [htl, hL, if_pos hpre, drop10_append, hR]
  simp only [hwithport]
  unfold parseSshStandard
  rw [htl]
  rw [if_neg (by simp [hstd])]
  unfold parseSshNoPort
  rw [htl, hL, if_pos hpre, drop10_append, hR]
  simp only [hc1, hc2, hrepo, hknown]
  simp [hknown]

theorem drop4_append (l : List Char) :
    (['g', 'i', 't', '@'] ++ l).drop 4 = l := by
  simp

/-- C6 amended, part for the classic SCP-like SSH syntax: self-hosted
classification with the scheme chosen by `isInternalAddress`. -/
theorem parse_sshStandard_selfHosted (host owner repo out : List Char)
    (hh1 : host ≠ []) (hh2 : ∀ c ∈ host, (!(c == ':')) = true)
    (ho1 : owner ≠ []) (ho2 : ∀ c ∈ owner, (!(c == '/')) = true)
    (hrepo : repoCapture repo = some out)
    (hknown : isKnownPlatform ⟨host⟩ = false) :
    GitUrlParser.parse
      ⟨"git@".toList ++ (host ++ ':' :: (owner ++ '/' :: repo))⟩ =
      some ⟨"local-gitlab", ⟨owner⟩, ⟨out⟩,
        ((if isInternalAddress ⟨host⟩ then "http" else "https") ++ "://" ++
          (⟨host⟩ : String)) ++ "/api/v4",
        some ((if isInternalAddress ⟨host⟩ then "http" else "https") ++
          "://" ++ (⟨host⟩ : String))⟩ := by
  have hL : "git@".toList = ['g', 'i', 't', '@'] := by decide
  rw [hL]
  set R : List Char := host ++ ':' :: (owner ++ '/' :: repo) with hR
  have htl : (⟨['g', 'i', 't', '@'] ++ R⟩ : String).toList =
      ['g', 'i', 't', '@'] ++ R := rfl
  have hhttps : parseHttps ⟨['g', 'i', 't', '@'] ++ R⟩ = none := by
    unfold parseHttps schemeSplit
    rw [htl]
    rw [show "https://".toList = ['h', 't', 't', 'p', 's', ':', '/', '/']
      from by decide]
    rw [show "http://".toList = ['h', 't', 't', 'p', ':', '/', '/']
      from by decide]
    simp [List.isPrefixOf]
  have hssh : List.isPrefixOf "ssh://git@".toList
      (['g', 'i', 't', '@'] ++ R) = false := by
    rw [show "ssh://git@".toList =
      ['s', 's', 'h', ':', '/', '/', 'g', 'i', 't', '@'] from by decide]
    simp [List.isPrefixOf]
  have hpre : List.isPrefixOf ['g', 'i', 't', '@']
      (['g', 'i', 't', '@'] ++ R) = true := isPrefixOf_append_self _ _
  have hc1 : captureUntil (fun c => !(c == ':')) ':'
      (host ++ ':' :: (owner ++ '/' :: repo)) =
      some (host, owner ++ '/' :: repo) :=
    captureUntil_append _ _ _ _ hh1 hh2 (by decide)
  have hc2 : captureUntil (fun c => !(c == '/')) '/' (owner ++ '/' :: repo) =
      some (owner, repo) :=
    captureUntil_append _ _ _ _ ho1 ho2 (by decide)
  unfold GitUrlParser.parse
  rw [hhttps]
  unfold parseSshWithPort
  rw [htl]
  rw [if_neg (by simp [hssh])]
  unfold parseSshStandard
  rw [htl, hL, if_pos hpre, drop4_append, hR]
  simp only [hc1, hc2, hrepo, hknown]
  simp [hknown]

/-- C6 amended: for remote URLs matched by one of the three SSH syntaxes and
classified self-hosted, the synthesized hostUrl uses scheme `http` exactly
when the textual heuristic `isInternalAddress` accepts the hostname
(`localhost`, or prefix `10.` / `192.168.` / `172.16.`-`172.31.`); every
hostname that is `localhost` or an IPv4 address lying in a private range is
accepted by the heuristic, but so are non-IP hostnames with those prefixes.
For the SSH-with-explicit-port form the port is omitted from the web hostUrl
exactly when the port string equals `2222`, and kept otherwise.  For the
HTTP(S) syntax the fallback keeps the URL's own scheme (shown here on a
private-range host that keeps `https`). -/
theorem parser_scheme_heuristic_amended :
    (∀ host port owner repo out : List Char, host ≠ [] →
      (∀ c ∈ host, (!(c == ':' || c == '/')) = true) → port ≠ [] →
      (∀ c ∈ port, c.isDigit = true) → owner ≠ [] →
      (∀ c ∈ owner, (!(c == '/')) = true) →
      repoCapture repo = some out → isKnownPlatform ⟨host⟩ = false →
      GitUrlParser.parse
        ⟨"ssh://git@".toList ++
          (host ++ ':' :: (port ++ '/' :: (owner ++ '/' :: repo)))⟩ =
        some ⟨"local-gitlab", ⟨owner⟩, ⟨out⟩,
          ((if isInternalAddress ⟨host⟩ then "http" else "https") ++ "://" ++
            (⟨host⟩ : String) ++
            (if (⟨port⟩ : String) == "2222" then ""
             else ":" ++ (⟨port⟩ : String))) ++ "/api/v4",
          some ((if isInternalAddress ⟨host⟩ then "http" else "https") ++
            "://" ++ (⟨host⟩ : String) ++
            (if (⟨port⟩ : String) == "2222" then ""
             else ":" ++ (⟨port⟩ : String)))⟩) ∧
    (∀ host owner repo out : List Char, host ≠ [] →
      (∀ c ∈ host, (!(c == ':' || c == '/')) = true) → owner ≠ [] →
      (∀ c ∈ owner, (!(c == '/')) = true) →
      repoCapture repo = some out → isKnownPlatform ⟨host⟩ = false →
      GitUrlParser.parse
        ⟨"ssh://git@".toList ++ (host ++ '/' :: (owner ++ '/' :: repo))⟩ =
        some ⟨"local-gitlab", ⟨owner⟩, ⟨out⟩,
          ((if isInternalAddress ⟨host⟩ then "http" else "https") ++ "://" ++
            (⟨host⟩ : String)) ++ "/api/v4",
          some ((if isInternalAddress ⟨host⟩ then "http" else "https") ++
            "://" ++ (⟨host⟩ : String))⟩) ∧
    (∀ host owner repo out : List Char, host ≠ [] →
      (∀ c ∈ host, (!(c == ':')) = true) → owner ≠ [] →
      (∀ c ∈ owner, (!(c == '/')) = true) →
      repoCapture repo = some out → isKnownPlatform ⟨host⟩ = false →
      GitUrlParser.parse
        ⟨"git@".toList ++ (host ++ ':' :: (owner ++ '/' :: repo))⟩ =
        some ⟨"local-gitlab", ⟨owner⟩, ⟨out⟩,
          ((if isInternalAddress ⟨host⟩ then "http" else "https") ++ "://" ++
            (⟨host⟩ : String)) ++ "/api/v4",
          some ((if isInternalAddress ⟨host⟩ then "http" else "https") ++
            "://" ++ (⟨host⟩ : String))⟩) ∧
    GitUrlParser.parse "https://192.168.1.7/acme/widget" =
      some ⟨"local-gitlab", "acme", "widget",
        "https://192.168.1.7/api/v4", some "https://192.168.1.7"⟩ ∧
    (∀ hostname : String, specPrivateOrLocalhost hostname = true →
      isInternalAddress hostname = true) := by
  refine ⟨?_, ?_, ?_, rfl, ?_⟩
  · intro host port owner repo out hh1 hh2 hp1 hp2 ho1 ho2 hrepo hknown
    exact parse_sshWithPort_selfHosted host port owner repo out hh1 hh2 hp1
      hp2 ho1 ho2 hrepo hknown
  · intro host owner repo out hh1 hh2 ho1 ho2 hrepo hknown
    exact parse_sshNoPort_selfHosted host owner repo out hh1 hh2 ho1 ho2
      hrepo hknown
  · intro host owner repo out hh1 hh2 ho1 ho2 hrepo hknown
    exact parse_sshStandard_selfHosted host owner repo out hh1 hh2 ho1 ho2
      hrepo hknown
  · intro hostname hs
    exact specPrivate_implies_internal hostname hs

theorem parser_scheme_heuristic_amended_witness :
    (GitUrlParser.parse
      ⟨"ssh://git@".toList ++
        ("myhost".toList ++ ':' :: ("8022".toList ++ '/' ::
          ("acme".toList ++ '/' :: "widget.git".toList)))⟩ =
      some ⟨"local-gitlab", ⟨"acme".toList⟩, ⟨"widget".toList⟩,
        ((if isInternalAddress ⟨"myhost".toList⟩ then "http" else "https") ++
          "://" ++ (⟨"myhost".toList⟩ : String) ++
          (if (⟨"8022".toList⟩ : String) == "2222" then ""
           else ":" ++ (⟨"8022".toList⟩ : String))) ++ "/api/v4",
        some ((if isInternalAddress ⟨"myhost".toList⟩ then "http"
          else "https") ++ "://" ++ (⟨"myhost".toList⟩ : String) ++
          (if (⟨"8022".toList⟩ : String) == "2222" then ""
           else ":" ++ (⟨"8022".toList⟩ : String)))⟩) ∧
    (GitUrlParser.parse
      ⟨"ssh://git@".toList ++ ("10.0.0.9".toList ++ '/' ::
        ("acme".toList ++ '/' :: "widget".toList))⟩ =
      some ⟨"local-gitlab", ⟨"acme".toList⟩, ⟨"widget".toList⟩,
        ((if isInternalAddress ⟨"10.0.0.9".toList⟩ then "http"
          else "https") ++ "://" ++ (⟨"10.0.0.9".toList⟩ : String)) ++
          "/api/v4",
        some ((if isInternalAddress ⟨"10.0.0.9".toList⟩ then "http"
          else "https") ++ "://" ++ (⟨"10.0.0.9".toList⟩ : String))⟩) ∧
    (GitUrlParser.parse
      ⟨"git@".toList ++ ("devbox".toList ++ ':' ::
        ("acme".toList ++ '/' :: "widget".toList))⟩ =
      some ⟨"local-gitlab", ⟨"acme".toList⟩, ⟨"widget".toList⟩,
        ((if isInternalAddress ⟨"devbox".toList⟩ then "http" else "https") ++
          "://" ++ (⟨"devbox".toList⟩ : String)) ++ "/api/v4",
        some ((if isInternalAddress ⟨"devbox".toList⟩ then "http"
          else "https") ++ "://" ++ (⟨"devbox".toList⟩ : String))⟩) ∧
    isInternalAddress "172.20.1.2" = true :=
  ⟨parser_scheme_heuristic_amended.1 "myhost".toList "8022".toList
    "acme".toList "widget.git".toList "widget".toList (by decide) (by decide)
    (by decide) (by decide) (by decide) (by decide) (by decide) (by decide),
   parser_scheme_heuristic_amended.2.1 "10.0.0.9".toList "acme".toList
    "widget".toList "widget".toList (by decide) (by decide) (by decide)
    (by decide) (by decide) (by decide),
   parser_scheme_heuristic_amended.2.2.1 "devbox".toList "acme".toList
    "widget".toList "widget".toList (by decide) (by decide) (by decide)
    (by decide) (by decide) (by decide),
   parser_scheme_heuristic_amended.2.2.2.2 "172.20.1.2" (by decide)⟩

end CommitHelper
